import Mathlib

/-!
Verification of the Davis Vantage Pro 2 anemometer speed-correction
interpolator (repository fergusd/weather).

The repository holds two near-duplicate implementations of one routine:

- src/speedCorrection/interpolator.c : float table `correctionTable[29][4]`
  (column 0 = speed threshold, columns 1..3 = corrections at 0/90/180
  degrees) and `float correctSpeed(float rawSpeed, float angle)`.
- src/speedCorrectionLite/interpolator.c : `uint8_t speedTable[29]` plus
  `int8_t correctionTable[29][3]` holding the corrections scaled by 10, and
  `float correctSpeed(uint8_t rawSpeed, uint8_t angle)` that divides the
  blended correction by 10 before adding it to the raw speed.

Both are embedded below over exact rational arithmetic (the C `float`
becomes ℚ; the claims about concrete values are stated by the spec in exact
decimal arithmetic).  Machine-integer widths only matter in two spots of
the lite variant, which are modelled explicitly: the `uint8_t` store of the
folded angle (`% 256`, which never wraps for inputs that fit in `uint8_t`)
and the `uint8_t` wrap of `speedIndexLow = speedIndexHigh - 1` when
`speedIndexHigh = 0`, which sends the row index to 255, out of bounds for
the 29-row tables.  Table reads with an out-of-bounds row index are
undefined behaviour in the C source, so both embeddings return `Option ℚ`:
`none` exactly when the routine would read outside its table, `some v`
when every access is in bounds and the returned value is `v`.
-/

/-- The bracket-scan loop shared verbatim by both variants
(src/speedCorrection/interpolator.c lines 95–105 and
src/speedCorrectionLite/interpolator.c lines 155–165):

    for(index = 0; index < correctionTableSize; index++) {
      if (cond index) \x7b speedIndexHigh = index; break; \x7d
      speedIndexHigh = index;
    }

`remaining` counts the loop iterations still allowed, i.e.
`correctionTableSize - index`; when it reaches zero the loop has exited
normally and the accumulator holds the last value written to
`speedIndexHigh`. -/
def scanLoop (cond : ℕ → Bool) : ℕ → ℕ → ℕ → ℕ
  | 0, _index, acc => acc
  | remaining + 1, index, _acc =>
      if cond index then index else scanLoop cond remaining (index + 1) index

namespace SpeedCorrection

/-- Number of table rows (`#define correctionTableSize 29`). -/
def correctionTableSize : ℕ := 29

/-- The float calibration table, src/speedCorrection/interpolator.c lines
43–71.  Column 0 is the speed threshold (`speedIndex`), columns 1–3 are the
corrections at 0°, 90° and 180° (`zeroDegreeIndex`, `ninetyDegreeIndex`,
`oneeightyDegreeIndex`).  Row 0 is the zero sentinel, row 28 the
max-speed sentinel repeating row 27's corrections. -/
def correctionTable : List (List ℚ) :=
  [[0, 0.0, 0.0, 0.0],
   [20, 3.3, -2.3, -3.6],
   [25, 3.5, -2.7, -4.6],
   [30, 3.8, -2.9, -4.8],
   [35, 4.2, -3.4, -5.3],
   [40, 4.5, -4.1, -5.7],
   [45, 4.7, -3.8, -4.5],
   [50, 5.0, -4.5, -4.9],
   [55, 5.3, -4.8, -5.2],
   [60, 5.7, -5.3, -5.9],
   [65, 5.8, -6.0, -6.0],
   [70, 6.2, -5.6, -6.1],
   [75, 6.4, -6.0, -6.8],
   [80, 6.8, -6.4, -6.9],
   [85, 7.1, -7.4, -6.8],
   [90, 7.4, -8.0, -6.8],
   [95, 7.5, -8.1, -7.5],
   [100, 7.7, -7.9, -7.2],
   [105, 8.2, -8.1, -7.7],
   [110, 8.5, -8.5, -7.7],
   [115, 8.9, -8.8, -8.5],
   [120, 9.5, -9.4, -9.0],
   [125, 10.0, -9.6, -9.8],
   [130, 9.8, -9.8, -10.3],
   [135, 9.8, -10.0, -11.0],
   [140, 9.3, -10.2, -11.3],
   [145, 9.5, -10.9, -10.5],
   [150, 9.8, -12.1, -12.0],
   [999, 9.8, -12.1, -12.0]]

/-- Table access `correctionTable[i][j]`. -/
def tbl (i j : ℕ) : ℚ := (correctionTable.getD i []).getD j 0

/-- Lines 83–90: fold the angle about the 180° axis. -/
def foldAngle (angle : ℚ) : ℚ :=
  if 180 < angle then 180 - (angle - 180) else angle

/-- Lines 95–105: the value of `speedIndexHigh` after the scan loop, with
loop condition `(rawSpeed - correctionTable[index][speedIndex]) <= 0.0`. -/
def speedIndexHigh (rawSpeed : ℚ) : ℕ :=
  scanLoop (fun index => decide (rawSpeed - tbl index 0 ≤ 0)) correctionTableSize 0 0

/-- Lines 109–147: the interpolation body once the bracket
`(speedIndexLow, speedIndexHigh)` has been selected and the angle folded.
Column numerals follow the C macros: 0 = speedIndex, 1 = zeroDegreeIndex,
2 = ninetyDegreeIndex, 3 = oneeightyDegreeIndex. -/
def bracketCorrect (speedIndexLow speedIndexHigh : ℕ)
    (rawSpeed correctionAngle : ℚ) : ℚ :=
  let speedDelta := tbl speedIndexHigh 0 - tbl speedIndexLow 0
  let speedOffset := rawSpeed - tbl speedIndexLow 0
  let speedFactor := speedOffset / speedDelta
  if correctionAngle ≤ 90 then
    let angleFactor := correctionAngle / 90
    let speedCorrectionLow :=
      (tbl speedIndexLow 2 - tbl speedIndexLow 1) * angleFactor + tbl speedIndexLow 1
    let speedCorrectionHigh :=
      (tbl speedIndexHigh 2 - tbl speedIndexHigh 1) * angleFactor + tbl speedIndexHigh 1
    (speedCorrectionHigh - speedCorrectionLow) * speedFactor + speedCorrectionLow + rawSpeed
  else
    let angleFactor := (correctionAngle - 90) / 90
    let speedCorrectionLow :=
      (tbl speedIndexLow 3 - tbl speedIndexLow 2) * angleFactor + tbl speedIndexLow 2
    let speedCorrectionHigh :=
      (tbl speedIndexHigh 3 - tbl speedIndexHigh 2) * angleFactor + tbl speedIndexHigh 2
    (speedCorrectionHigh - speedCorrectionLow) * speedFactor + speedCorrectionLow + rawSpeed

/-- Lines 73–150: `float correctSpeed(float rawSpeed, float angle)`.
Returns `none` exactly when `speedIndexHigh = 0`, in which case the C code
sets `speedIndexLow = -1` and reads `correctionTable[-1][...]`, an
out-of-bounds access. -/
def correctSpeed (rawSpeed angle : ℚ) : Option ℚ :=
  let hi := speedIndexHigh rawSpeed
  if hi = 0 then none
  else some (bracketCorrect (hi - 1) hi rawSpeed (foldAngle angle))

/-- Proof-side integer shadow of the float table: every entry times 10. -/
def tblZ : List (List ℤ) :=
  [[0, 0, 0, 0],
   [200, 33, -23, -36],
   [250, 35, -27, -46],
   [300, 38, -29, -48],
   [350, 42, -34, -53],
   [400, 45, -41, -57],
   [450, 47, -38, -45],
   [500, 50, -45, -49],
   [550, 53, -48, -52],
   [600, 57, -53, -59],
   [650, 58, -60, -60],
   [700, 62, -56, -61],
   [750, 64, -60, -68],
   [800, 68, -64, -69],
   [850, 71, -74, -68],
   [900, 74, -80, -68],
   [950, 75, -81, -75],
   [1000, 77, -79, -72],
   [1050, 82, -81, -77],
   [1100, 85, -85, -77],
   [1150, 89, -88, -85],
   [1200, 95, -94, -90],
   [1250, 100, -96, -98],
   [1300, 98, -98, -103],
   [1350, 98, -100, -110],
   [1400, 93, -102, -113],
   [1450, 95, -109, -105],
   [1500, 98, -121, -120],
   [9990, 98, -121, -120]]

/-- Shadow table access. -/
def tz (i j : ℕ) : ℤ := (tblZ.getD i []).getD j 0

/-- Angle-axis interpolation of one float-table row: the common shape of
the two branches of the interpolation body. -/
def rowCorr (i : ℕ) (correctionAngle : ℚ) : ℚ :=
  if correctionAngle ≤ 90 then
    (tbl i 2 - tbl i 1) * (correctionAngle / 90) + tbl i 1
  else
    (tbl i 3 - tbl i 2) * ((correctionAngle - 90) / 90) + tbl i 2

end SpeedCorrection

namespace SpeedCorrectionLite

/-- Number of table rows (`#define correctionTableSize 29`). -/
def correctionTableSize : ℕ := 29

/-- The speed-site table `uint8_t speedTable[29]`,
src/speedCorrectionLite/interpolator.c lines 73–101. -/
def speedTable : List ℕ :=
  [0, 20, 25, 30, 35, 40, 45, 50, 55, 60, 65, 70, 75, 80, 85, 90, 95,
   100, 105, 110, 115, 120, 125, 130, 135, 140, 145, 150, 255]

/-- The correction table `int8_t correctionTable[29][3]` (corrections
scaled by 10), lines 103–131.  Column 0 = zeroDegreeIndex,
1 = ninetyDegreeIndex, 2 = oneeightyDegreeIndex. -/
def correctionTable : List (List ℤ) :=
  [[0, 0, 0],
   [33, -23, -36],
   [35, -27, -46],
   [38, -29, -48],
   [42, -34, -53],
   [45, -41, -57],
   [47, -38, -45],
   [50, -45, -49],
   [53, -48, -52],
   [57, -53, -59],
   [58, -60, -60],
   [62, -56, -61],
   [64, -60, -68],
   [68, -64, -69],
   [71, -74, -68],
   [74, -80, -68],
   [75, -81, -75],
   [77, -79, -72],
   [82, -81, -77],
   [85, -85, -77],
   [89, -88, -85],
   [95, -94, -90],
   [100, -96, -98],
   [98, -98, -103],
   [98, -100, -110],
   [93, -102, -113],
   [95, -109, -105],
   [98, -121, -120],
   [98, -121, -120]]

/-- Table access `speedTable[i]`. -/
def spd (i : ℕ) : ℕ := speedTable.getD i 0

/-- Table access `correctionTable[i][j]`. -/
def cor (i j : ℕ) : ℤ := (correctionTable.getD i []).getD j 0

/-- Lines 143–150: fold the angle about the 180° axis.  The arithmetic is
done in `int` (both operands promoted) and the result stored into the
`uint8_t` variable `correctionAngle`, hence the `% 256`; for `angle ≤ 255`
the folded value lies in `[105, 180)` and the store never wraps. -/
def foldAngle (angle : ℕ) : ℤ :=
  if 180 < angle then (180 - ((angle : ℤ) - 180)) % 256 else (angle : ℤ)

/-- Lines 155–165: the value of `speedIndexHigh` after the scan loop, with
loop condition `(rawSpeed - speedTable[index] <= 0)` computed in `int`. -/
def speedIndexHigh (rawSpeed : ℕ) : ℕ :=
  scanLoop (fun index => decide ((rawSpeed : ℤ) - (spd index : ℤ) ≤ 0))
    correctionTableSize 0 0

/-- Lines 169–209: the interpolation body once the bracket
`(speedIndexLow, speedIndexHigh)` has been selected and the angle folded.
Integer table entries are promoted to float (here ℚ); the blended
correction is divided by 10 before being added to the raw speed. -/
def bracketCorrect (speedIndexLow speedIndexHigh : ℕ) (rawSpeed : ℕ)
    (correctionAngle : ℤ) : ℚ :=
  let speedDelta : ℚ := ((spd speedIndexHigh : ℤ) - (spd speedIndexLow : ℤ) : ℤ)
  let speedOffset : ℚ := ((rawSpeed : ℤ) - (spd speedIndexLow : ℤ) : ℤ)
  let speedFactor := speedOffset / speedDelta
  if correctionAngle ≤ 90 then
    let angleFactor : ℚ := (correctionAngle : ℚ) / 90
    let speedCorrectionLow :=
      ((cor speedIndexLow 1 - cor speedIndexLow 0 : ℤ) : ℚ) * angleFactor
        + (cor speedIndexLow 0 : ℚ)
    let speedCorrectionHigh :=
      ((cor speedIndexHigh 1 - cor speedIndexHigh 0 : ℤ) : ℚ) * angleFactor
        + (cor speedIndexHigh 0 : ℚ)
    ((speedCorrectionHigh - speedCorrectionLow) * speedFactor + speedCorrectionLow) / 10
      + (rawSpeed : ℚ)
  else
    let angleFactor : ℚ := ((correctionAngle : ℚ) - 90) / 90
    let speedCorrectionLow :=
      ((cor speedIndexLow 2 - cor speedIndexLow 1 : ℤ) : ℚ) * angleFactor
        + (cor speedIndexLow 1 : ℚ)
    let speedCorrectionHigh :=
      ((cor speedIndexHigh 2 - cor speedIndexHigh 1 : ℤ) : ℚ) * angleFactor
        + (cor speedIndexHigh 1 : ℚ)
    ((speedCorrectionHigh - speedCorrectionLow) * speedFactor + speedCorrectionLow) / 10
      + (rawSpeed : ℚ)

/-- Lines 133–212: `float correctSpeed(uint8_t rawSpeed, uint8_t angle)`.
When `speedIndexHigh = 0` the `uint8_t` subtraction
`speedIndexLow = speedIndexHigh - 1` wraps to 255 and the C code reads
`speedTable[255]` and `correctionTable[255][...]`, out of bounds for the
29-row tables; the embedding returns `none` there. -/
def correctSpeed (rawSpeed angle : ℕ) : Option ℚ :=
  let hi := speedIndexHigh rawSpeed
  if hi = 0 then none
  else some (bracketCorrect (hi - 1) hi rawSpeed (foldAngle angle))

/-- Angle-axis interpolation of one lite-table row, entries promoted to ℚ. -/
def rowCorrLite (i : ℕ) (correctionAngle : ℚ) : ℚ :=
  if correctionAngle ≤ 90 then
    ((cor i 1 : ℚ) - (cor i 0 : ℚ)) * (correctionAngle / 90) + (cor i 0 : ℚ)
  else
    ((cor i 2 : ℚ) - (cor i 1 : ℚ)) * ((correctionAngle - 90) / 90) + (cor i 1 : ℚ)

end SpeedCorrectionLite

namespace Spec

/-- Data model of spec.md §3: one row of the calibration table. -/
structure CalibrationRow where
  speed_threshold : ℚ
  correction_at_0 : ℚ
  correction_at_90 : ℚ
  correction_at_180 : ℚ

/-- The float-variant table viewed through the spec's data model (same
reference data, storage scale 1). -/
def floatTable : List CalibrationRow :=
  (List.range 29).map fun i =>
    ⟨SpeedCorrection.tbl i 0, SpeedCorrection.tbl i 1,
     SpeedCorrection.tbl i 2, SpeedCorrection.tbl i 3⟩

/-- The lite-variant table viewed through the spec's data model (same
reference data scaled by 10, storage scale 10). -/
def liteTable : List CalibrationRow :=
  (List.range 29).map fun i =>
    ⟨(SpeedCorrectionLite.spd i : ℚ), (SpeedCorrectionLite.cor i 0 : ℚ),
     (SpeedCorrectionLite.cor i 1 : ℚ), (SpeedCorrectionLite.cor i 2 : ℚ)⟩

/-- Modelled from the spec, §4.1 Step 2: scan the table in increasing
speed_threshold order and return the index of the first row whose
speed_threshold ≥ raw_speed (length of the table if none qualifies). -/
def firstRowGE (raw : ℚ) : List CalibrationRow → ℕ
  | [] => 0
  | r :: rs => if raw ≤ r.speed_threshold then 0 else firstRowGE raw rs + 1

/-- Modelled from the spec, §4.1 Step 3: angle-axis interpolation for one
bracket row. -/
def rowCorrection (r : CalibrationRow) (correctionAngle : ℚ) : ℚ :=
  if correctionAngle ≤ 90 then
    r.correction_at_0 + (correctionAngle / 90) * (r.correction_at_90 - r.correction_at_0)
  else
    r.correction_at_90 + ((correctionAngle - 90) / 90) * (r.correction_at_180 - r.correction_at_90)

/-- Modelled from the spec, §4.1 Steps 1–4: the reference algorithm
`correct_speed` — fold the angle (`360 - angle` when `angle > 180`), pick
`high` = first row with threshold ≥ raw_speed and `low = high - 1`,
interpolate each bracket row on the angle axis, blend with the speed
factor, denormalize by the storage scale, add to the raw speed. -/
def refCorrectSpeed (table : List CalibrationRow) (scale raw angle : ℚ) : ℚ :=
  let correction_angle := if 180 < angle then 360 - angle else angle
  let hi := firstRowGE raw table
  let lo := hi - 1
  let high := table.getD hi ⟨0, 0, 0, 0⟩
  let low := table.getD lo ⟨0, 0, 0, 0⟩
  let speed_factor := (raw - low.speed_threshold) / (high.speed_threshold - low.speed_threshold)
  let low_correction := rowCorrection low correction_angle
  let high_correction := rowCorrection high correction_angle
  let blended_correction := low_correction + speed_factor * (high_correction - low_correction)
  raw + blended_correction / scale

end Spec


/-- If `cond` first holds at position `k` within the loop's range, the scan
stops there and returns `k`. -/
theorem scanLoop_first {cond : ℕ → Bool} :
    ∀ remaining index acc k, index ≤ k → k < index + remaining →
      cond k = true → (∀ j, index ≤ j → j < k → cond j = false) →
      scanLoop cond remaining index acc = k := by
  intro remaining
  induction remaining with
  | zero => intro index acc k h1 h2 _ _; omega
  | succ n ih =>
    intro index acc k h1 h2 hck hj
    rcases eq_or_lt_of_le h1 with h | h
    · subst h
      simp [scanLoop, hck]
    · have hci : cond index = false := hj index le_rfl h
      simp only [scanLoop, hci, Bool.false_eq_true, if_false]
      exact ih (index + 1) index k h (by omega) hck fun j hj1 hj2 => hj j (by omega) hj2

/-- If `cond` never holds in the loop's range, the loop runs to completion
and leaves `speedIndexHigh` at the last index visited. -/
theorem scanLoop_allFalse {cond : ℕ → Bool} :
    ∀ remaining index acc, remaining ≠ 0 →
      (∀ j, index ≤ j → j < index + remaining → cond j = false) →
      scanLoop cond remaining index acc = index + remaining - 1 := by
  intro remaining
  induction remaining with
  | zero => intro _ _ h _; exact absurd rfl h
  | succ n ih =>
    intro index acc _ hj
    have hci : cond index = false := hj index le_rfl (by omega)
    simp only [scanLoop, hci, Bool.false_eq_true, if_false]
    rcases Nat.eq_zero_or_pos n with hn | hn
    · subst hn
      simp [scanLoop]
    · have h := ih (index + 1) index (by omega) fun j h1 h2 => hj j (by omega) (by omega)
      rw [h]
      omega

/-- Any value lying above the start of a chain and at or below its end has
a bracketing pair of consecutive indices. -/
theorem exists_bracket {α : Type*} [LinearOrder α] {t : ℕ → α} {raw : α} :
    ∀ i, t 0 < raw → raw ≤ t i →
      ∃ k, 1 ≤ k ∧ k ≤ i ∧ t (k - 1) < raw ∧ raw ≤ t k := by
  intro i
  induction i with
  | zero => intro h1 h2; exact absurd (h1.trans_le h2) (lt_irrefl (t 0))
  | succ n ih =>
    intro h1 h2
    by_cases hc : raw ≤ t n
    · obtain ⟨k, hk1, hk2, hk3, hk4⟩ := ih h1 hc
      exact ⟨k, hk1, hk2.trans (Nat.le_succ n), hk3, hk4⟩
    · push_neg at hc
      exact ⟨n + 1, by omega, le_rfl, by simpa using hc, h2⟩

namespace SpeedCorrection


set_option maxHeartbeats 1000000 in
/-- The float table is the integer shadow with every entry divided by 10. -/
theorem correctionTable_eq_shadow :
    correctionTable = tblZ.map (List.map (fun z : ℤ => (z : ℚ) / 10)) := by
  norm_num [correctionTable, tblZ]

/-- getD commutes with the entry-wise division, inner level. -/
theorem getD_map_entry (l : List ℤ) : ∀ n : ℕ,
    (l.map (fun z : ℤ => (z : ℚ) / 10)).getD n 0 = ((l.getD n 0 : ℤ) : ℚ) / 10 := by
  induction l with
  | nil => intro n; norm_num
  | cons a l ih =>
    intro n
    cases n with
    | zero => rfl
    | succ m => exact ih m

/-- getD commutes with the entry-wise division, row level. -/
theorem getD_map_row (L : List (List ℤ)) : ∀ n : ℕ,
    (L.map (List.map (fun z : ℤ => (z : ℚ) / 10))).getD n [] =
      (L.getD n []).map (fun z : ℤ => (z : ℚ) / 10) := by
  induction L with
  | nil => intro n; rfl
  | cons a L ih =>
    intro n
    cases n with
    | zero => rfl
    | succ m => exact ih m

/-- Every float-table entry is its integer shadow divided by 10. -/
theorem tbl_eq_tz (i j : ℕ) : tbl i j = (tz i j : ℚ) / 10 := by
  rw [tbl, correctionTable_eq_shadow, getD_map_row, getD_map_entry]
  rfl

/-- The speed column of the shadow table is strictly increasing. -/
theorem tz_strictMono : ∀ i, i < 28 → tz i 0 < tz (i + 1) 0 := by decide

/-- The speed column of the float table is strictly increasing. -/
theorem tbl_strictMono : ∀ i, i < 28 → tbl i 0 < tbl (i + 1) 0 := by
  intro i hi
  rw [tbl_eq_tz, tbl_eq_tz]
  have h : (tz i 0 : ℚ) < tz (i + 1) 0 := by exact_mod_cast tz_strictMono i hi
  linarith

/-- The speed column of the float table is monotone. -/
theorem tbl_mono_le : ∀ i j, i ≤ j → j ≤ 28 → tbl i 0 ≤ tbl j 0 := by
  intro i j hij hj
  induction j, hij using Nat.le_induction with
  | base => exact le_rfl
  | succ j hij ih =>
    exact (ih (by omega)).trans (le_of_lt (tbl_strictMono j (by omega)))

/-- The scan stops exactly at the bracketing index. -/
theorem speedIndexHigh_eq {raw : ℚ} {k : ℕ} (hk1 : 1 ≤ k) (hk : k ≤ 28)
    (hlow : tbl (k - 1) 0 < raw) (hhigh : raw ≤ tbl k 0) :
    speedIndexHigh raw = k := by
  unfold speedIndexHigh correctionTableSize
  apply scanLoop_first 29 0 0 k (Nat.zero_le k) (by omega)
  · simp only [decide_eq_true_eq, sub_nonpos]
    exact hhigh
  · intro j _ hjk
    have hle : tbl j 0 ≤ tbl (k - 1) 0 := tbl_mono_le j (k - 1) (by omega) (by omega)
    simp only [decide_eq_false_iff_not, sub_nonpos, not_le]
    linarith

/-- For raw speed in the table's range the scan yields an index in `[1, 28]`
bracketing the raw speed. -/
theorem speedIndexHigh_bracket {raw : ℚ} (h0 : 0 < raw) (h999 : raw ≤ 999) :
    1 ≤ speedIndexHigh raw ∧ speedIndexHigh raw ≤ 28 ∧
      tbl (speedIndexHigh raw - 1) 0 < raw ∧ raw ≤ tbl (speedIndexHigh raw) 0 := by
  have ht0 : tbl 0 0 < raw := by
    have h00 : tbl 0 0 = 0 := rfl
    rw [h00]; exact h0
  have ht28 : raw ≤ tbl 28 0 := by
    have h28 : tbl 28 0 = 999 := rfl
    rw [h28]; exact h999
  obtain ⟨k, hk1, hk28, hlo, hhi⟩ := exists_bracket (t := fun i => tbl i 0) 28 ht0 ht28
  have hk := speedIndexHigh_eq hk1 hk28 hlo hhi
  rw [hk]
  exact ⟨hk1, hk28, hlo, hhi⟩

/-- Above the sentinel the loop runs to completion and returns the last
row index 28. -/
theorem speedIndexHigh_over {raw : ℚ} (h : 999 < raw) : speedIndexHigh raw = 28 := by
  have h28 : tbl 28 0 = 999 := rfl
  have hall : ∀ j, 0 ≤ j → j < 0 + 29 →
      (fun index => decide (raw - tbl index 0 ≤ 0)) j = false := by
    intro j _ hj
    have hle : tbl j 0 ≤ tbl 28 0 := tbl_mono_le j 28 (by omega) le_rfl
    rw [h28] at hle
    simp only [decide_eq_false_iff_not, sub_nonpos, not_le]
    linarith
  unfold speedIndexHigh correctionTableSize
  have hs := scanLoop_allFalse 29 0 0 (by omega) hall
  simpa using hs

/-- For nonpositive raw speed the scan stops immediately at row 0. -/
theorem speedIndexHigh_nonpos {raw : ℚ} (h : raw ≤ 0) : speedIndexHigh raw = 0 := by
  unfold speedIndexHigh correctionTableSize
  apply scanLoop_first 29 0 0 0 le_rfl (by omega)
  · have h00 : tbl 0 0 = 0 := rfl
    simp only [decide_eq_true_eq, sub_nonpos, h00]
    exact h
  · intro j h1 h2
    exact absurd h2 (Nat.not_lt_zero j)

end SpeedCorrection

namespace SpeedCorrectionLite

/-- The speed table of the lite variant is strictly increasing. -/
theorem spd_strictMono_lite : ∀ i, i < 28 → spd i < spd (i + 1) := by decide

/-- The speed table of the lite variant is monotone. -/
theorem spd_mono_le_lite : ∀ i j, i ≤ j → j ≤ 28 → spd i ≤ spd j := by
  intro i j hij hj
  induction j, hij using Nat.le_induction with
  | base => exact le_rfl
  | succ j hij ih =>
    exact (ih (by omega)).trans (le_of_lt (spd_strictMono_lite j (by omega)))

/-- The lite scan stops exactly at the bracketing index. -/
theorem speedIndexHigh_eq_lite {raw k : ℕ} (hk1 : 1 ≤ k) (hk : k ≤ 28)
    (hlow : spd (k - 1) < raw) (hhigh : raw ≤ spd k) :
    speedIndexHigh raw = k := by
  unfold speedIndexHigh correctionTableSize
  apply scanLoop_first 29 0 0 k (Nat.zero_le k) (by omega)
  · simp only [decide_eq_true_eq, sub_nonpos]
    exact_mod_cast hhigh
  · intro j _ hjk
    have hle : spd j ≤ spd (k - 1) := spd_mono_le_lite j (k - 1) (by omega) (by omega)
    simp only [decide_eq_false_iff_not, sub_nonpos, not_le]
    exact_mod_cast lt_of_le_of_lt hle hlow

/-- For raw speed in `[1, 255]` the lite scan yields an index in `[1, 28]`
bracketing the raw speed. -/
theorem speedIndexHigh_bracket_lite {raw : ℕ} (h0 : 0 < raw) (h255 : raw ≤ 255) :
    1 ≤ speedIndexHigh raw ∧ speedIndexHigh raw ≤ 28 ∧
      spd (speedIndexHigh raw - 1) < raw ∧ raw ≤ spd (speedIndexHigh raw) := by
  have ht0 : spd 0 < raw := h0
  have ht28 : raw ≤ spd 28 := h255
  obtain ⟨k, hk1, hk28, hlo, hhi⟩ := exists_bracket (t := spd) 28 ht0 ht28
  have hk := speedIndexHigh_eq_lite hk1 hk28 hlo hhi
  rw [hk]
  exact ⟨hk1, hk28, hlo, hhi⟩

/-- For raw speed 0 the lite scan stops immediately at row 0. -/
theorem speedIndexHigh_zero_lite : speedIndexHigh 0 = 0 := by
  unfold speedIndexHigh correctionTableSize
  apply scanLoop_first 29 0 0 0 le_rfl (by omega)
  · simp
  · intro j h1 h2
    exact absurd h2 (Nat.not_lt_zero j)

end SpeedCorrectionLite

namespace SpeedCorrection


/-- Normal form of the float interpolation body. -/
theorem bracketCorrect_eq (lo hi : ℕ) (raw ca : ℚ) :
    bracketCorrect lo hi raw ca =
      (rowCorr hi ca - rowCorr lo ca) * ((raw - tbl lo 0) / (tbl hi 0 - tbl lo 0))
        + rowCorr lo ca + raw := by
  simp only [bracketCorrect, rowCorr]
  split_ifs with h
  · ring
  · ring

/-- The sentinel row repeats row 27's corrections, so its angle
interpolation agrees with row 27's. -/
theorem rowCorr_flat (ca : ℚ) : rowCorr 28 ca = rowCorr 27 ca := rfl

/-- In the top bracket the speed factor multiplies a zero difference:
the correction is row 27's angle interpolation whatever the raw speed. -/
theorem bracketCorrect_flat (raw ca : ℚ) :
    bracketCorrect 27 28 raw ca = raw + rowCorr 27 ca := by
  rw [bracketCorrect_eq, rowCorr_flat]
  ring

/-- At the high site the speed factor is exactly one and the high row's
angle interpolation is returned. -/
theorem bracketCorrect_at_high (lo hi : ℕ) (h : tbl lo 0 < tbl hi 0) (ca : ℚ) :
    bracketCorrect lo hi (tbl hi 0) ca = tbl hi 0 + rowCorr hi ca := by
  rw [bracketCorrect_eq]
  have hne : tbl hi 0 - tbl lo 0 ≠ 0 := sub_ne_zero.mpr (ne_of_gt h)
  rw [div_self hne]
  ring

/-- At the low site the speed factor is exactly zero and the low row's
angle interpolation is returned. -/
theorem bracketCorrect_at_low (lo hi : ℕ) (ca : ℚ) :
    bracketCorrect lo hi (tbl lo 0) ca = tbl lo 0 + rowCorr lo ca := by
  rw [bracketCorrect_eq]
  rw [sub_self, zero_div, mul_zero]
  ring

/-- Angle interpolation at the 0° site returns column 1. -/
theorem rowCorr_at_zero (i : ℕ) : rowCorr i 0 = tbl i 1 := by
  unfold rowCorr
  norm_num

/-- Angle interpolation at the 90° site returns column 2. -/
theorem rowCorr_at_ninety (i : ℕ) : rowCorr i 90 = tbl i 2 := by
  unfold rowCorr
  norm_num

/-- Angle interpolation at the 180° site returns column 3. -/
theorem rowCorr_at_oneeighty (i : ℕ) : rowCorr i 180 = tbl i 3 := by
  unfold rowCorr
  norm_num

/-- Angles at or below 180° are unchanged by the fold. -/
theorem foldAngle_of_le {a : ℚ} (h : a ≤ 180) : foldAngle a = a :=
  if_neg (not_lt.mpr h)

/-- The folded angle of any input in `[0, 360]` lies in `[0, 180]`. -/
theorem foldAngle_mem {a : ℚ} (h0 : 0 ≤ a) (h1 : a ≤ 360) :
    0 ≤ foldAngle a ∧ foldAngle a ≤ 180 := by
  unfold foldAngle
  split_ifs with h <;> constructor <;> linarith

end SpeedCorrection

namespace SpeedCorrectionLite


/-- Normal form of the lite interpolation body. -/
theorem bracketCorrect_eq_lite (lo hi raw : ℕ) (z : ℤ) :
    bracketCorrect lo hi raw z =
      ((rowCorrLite hi (z : ℚ) - rowCorrLite lo (z : ℚ)) *
          (((raw : ℚ) - (spd lo : ℚ)) / ((spd hi : ℚ) - (spd lo : ℚ)))
        + rowCorrLite lo (z : ℚ)) / 10 + (raw : ℚ) := by
  simp only [bracketCorrect, rowCorrLite]
  by_cases h : z ≤ 90
  · have h' : (z : ℚ) ≤ 90 := by exact_mod_cast h
    simp only [if_pos h, if_pos h']
    push_cast
    ring
  · have h' : ¬ (z : ℚ) ≤ 90 := by exact_mod_cast h
    simp only [if_neg h, if_neg h']
    push_cast
    ring

/-- The lite sentinel row repeats row 27's corrections. -/
theorem rowCorrLite_flat (ca : ℚ) : rowCorrLite 28 ca = rowCorrLite 27 ca := rfl

/-- In the top lite bracket the correction is flat in the raw speed. -/
theorem bracketCorrect_flat_lite (raw : ℕ) (z : ℤ) :
    bracketCorrect 27 28 raw z = (raw : ℚ) + rowCorrLite 27 (z : ℚ) / 10 := by
  rw [bracketCorrect_eq_lite, rowCorrLite_flat]
  ring

/-- Lite angles at or below 180 are unchanged by the fold. -/
theorem foldAngle_of_le_lite {a : ℕ} (h : a ≤ 180) : foldAngle a = (a : ℤ) :=
  if_neg (by omega)

/-- The lite folded angle of any input in `[0, 255]` lies in `[0, 180]`. -/
theorem foldAngle_mem_lite {a : ℕ} (h1 : a ≤ 255) :
    0 ≤ foldAngle a ∧ foldAngle a ≤ 180 := by
  unfold foldAngle
  split_ifs with h
  · have : (180 - ((a : ℤ) - 180)) % 256 = 360 - (a : ℤ) := by
      rw [Int.emod_eq_of_lt (by omega) (by omega)]
      omega
    rw [this]
    omega
  · omega

/-- For inputs above 180 (that fit a byte) the lite fold is `360 - angle`. -/
theorem foldAngle_of_gt_lite {a : ℕ} (h : 180 < a) (h255 : a ≤ 255) :
    foldAngle a = 360 - (a : ℤ) := by
  unfold foldAngle
  rw [if_pos (by omega)]
  rw [Int.emod_eq_of_lt (by omega) (by omega)]
  omega

end SpeedCorrectionLite

namespace SpeedCorrection

/-- Above the last calibrated site the float routine lands in the top
bracket (27, 28) and returns row 27's angle interpolation, flat in the
raw speed. -/
theorem correctSpeed_top {r : ℚ} (h1 : 150 < r) (h2 : r ≤ 999) (a : ℚ) :
    correctSpeed r a = some (r + rowCorr 27 (foldAngle a)) := by
  have hscan : speedIndexHigh r = 28 := by
    apply speedIndexHigh_eq (by norm_num) le_rfl
    · show tbl (28 - 1) 0 < r
      have h27 : tbl (28 - 1) 0 = 150 := rfl
      rw [h27]
      exact h1
    · have h28 : tbl 28 0 = 999 := rfl
      rw [h28]
      exact h2
  simp only [correctSpeed, hscan]
  norm_num
  rw [bracketCorrect_flat]

end SpeedCorrection

namespace SpeedCorrectionLite

/-- Above the last calibrated site the lite routine lands in the top
bracket (27, 28) and returns row 27's angle interpolation divided by 10,
flat in the raw speed. -/
theorem correctSpeed_top_lite {r : ℕ} (h1 : 150 < r) (h2 : r ≤ 255) (a : ℕ) :
    correctSpeed r a = some ((r : ℚ) + rowCorrLite 27 ((foldAngle a : ℤ) : ℚ) / 10) := by
  have hscan : speedIndexHigh r = 28 := by
    apply speedIndexHigh_eq_lite (by norm_num) le_rfl
    · exact h1
    · exact h2
  simp only [correctSpeed, hscan]
  norm_num
  rw [bracketCorrect_flat_lite]

end SpeedCorrectionLite

/-- C2: the spec requires a zero-speed special case returning zero
correction, but the code has none: at raw speed 0 the scan stops at row 0,
`speedIndexLow` leaves the table (index -1 in the float variant, 255 after
the uint8 wrap in the lite variant), and the table is read out of bounds
instead of returning the raw speed unchanged. -/
theorem c2_zero_speed_out_of_bounds :
    (∀ angle : ℚ, SpeedCorrection.correctSpeed 0 angle = none) ∧
      ∀ angle : ℕ, SpeedCorrectionLite.correctSpeed 0 angle = none := by
  constructor
  · intro angle
    simp [SpeedCorrection.correctSpeed,
      SpeedCorrection.speedIndexHigh_nonpos (le_refl (0 : ℚ))]
  · intro angle
    simp [SpeedCorrectionLite.correctSpeed,
      SpeedCorrectionLite.speedIndexHigh_zero_lite]

/-- C3 counterexample: the claim quantifies over every table row, including
the zero sentinel row (threshold 0, all corrections 0); there
`correct_speed(0, 0)` does not return `0 + correction_at_0 = 0` — the code
reads the table out of bounds instead. -/
theorem c3_zero_row_counterexample :
    SpeedCorrection.correctSpeed 0 0 ≠ some ((0 : ℚ) + SpeedCorrection.tbl 0 1) := by
  simp [SpeedCorrection.correctSpeed,
    SpeedCorrection.speedIndexHigh_nonpos (le_refl (0 : ℚ))]

/-- C3 (amended to the rows with positive threshold, indices 1–28): at
every tabulated site `s = tbl i 0` and reference angle 0/90/180 the float
routine returns exactly `s` plus that row's tabulated correction (scale 1);
the speed factor there is exactly one, selecting the high row. -/
theorem c3_tabulated_sites :
    ∀ i, 1 ≤ i → i ≤ 28 →
      SpeedCorrection.correctSpeed (SpeedCorrection.tbl i 0) 0
          = some (SpeedCorrection.tbl i 0 + SpeedCorrection.tbl i 1) ∧
      SpeedCorrection.correctSpeed (SpeedCorrection.tbl i 0) 90
          = some (SpeedCorrection.tbl i 0 + SpeedCorrection.tbl i 2) ∧
      SpeedCorrection.correctSpeed (SpeedCorrection.tbl i 0) 180
          = some (SpeedCorrection.tbl i 0 + SpeedCorrection.tbl i 3) := by
  intro i h1 h28
  have hmono : SpeedCorrection.tbl (i - 1) 0 < SpeedCorrection.tbl i 0 := by
    have h := SpeedCorrection.tbl_strictMono (i - 1) (by omega)
    have he : i - 1 + 1 = i := by omega
    rwa [he] at h
  have hscan : SpeedCorrection.speedIndexHigh (SpeedCorrection.tbl i 0) = i :=
    SpeedCorrection.speedIndexHigh_eq h1 h28 hmono le_rfl
  have hne : ¬ i = 0 := by omega
  refine ⟨?_, ?_, ?_⟩
  · simp only [SpeedCorrection.correctSpeed, hscan, if_neg hne]
    rw [SpeedCorrection.foldAngle_of_le (by norm_num : (0 : ℚ) ≤ 180),
      SpeedCorrection.bracketCorrect_at_high (i - 1) i hmono,
      SpeedCorrection.rowCorr_at_zero]
  · simp only [SpeedCorrection.correctSpeed, hscan, if_neg hne]
    rw [SpeedCorrection.foldAngle_of_le (by norm_num : (90 : ℚ) ≤ 180),
      SpeedCorrection.bracketCorrect_at_high (i - 1) i hmono,
      SpeedCorrection.rowCorr_at_ninety]
  · simp only [SpeedCorrection.correctSpeed, hscan, if_neg hne]
    rw [SpeedCorrection.foldAngle_of_le (by norm_num : (180 : ℚ) ≤ 180),
      SpeedCorrection.bracketCorrect_at_high (i - 1) i hmono,
      SpeedCorrection.rowCorr_at_oneeighty]

/-- Witness for C3's amended theorem at row 1 (threshold 20). -/
theorem c3_tabulated_sites_witness :
    1 ≤ 1 ∧ 1 ≤ 28 ∧
      (SpeedCorrection.correctSpeed (SpeedCorrection.tbl 1 0) 0
          = some (SpeedCorrection.tbl 1 0 + SpeedCorrection.tbl 1 1) ∧
        SpeedCorrection.correctSpeed (SpeedCorrection.tbl 1 0) 90
          = some (SpeedCorrection.tbl 1 0 + SpeedCorrection.tbl 1 2) ∧
        SpeedCorrection.correctSpeed (SpeedCorrection.tbl 1 0) 180
          = some (SpeedCorrection.tbl 1 0 + SpeedCorrection.tbl 1 3)) :=
  ⟨le_rfl, by norm_num, c3_tabulated_sites 1 le_rfl (by norm_num)⟩

/-- C5: fold-back symmetry — for any raw speed and any angle in `[0, 180]`
the float routine returns the same result at `angle` and at `360 - angle`
(the fold maps both to the same correction angle). -/
theorem c5_fold_symmetry :
    ∀ (rawSpeed angle : ℚ), 0 ≤ angle → angle ≤ 180 →
      SpeedCorrection.correctSpeed rawSpeed angle
        = SpeedCorrection.correctSpeed rawSpeed (360 - angle) := by
  intro r a h0 h180
  have hfold : SpeedCorrection.foldAngle (360 - a) = SpeedCorrection.foldAngle a := by
    unfold SpeedCorrection.foldAngle
    split_ifs with h1 h2 h3 <;> linarith
  unfold SpeedCorrection.correctSpeed
  rw [hfold]

/-- Witness for C5 at raw speed 20, angle 90. -/
theorem c5_fold_symmetry_witness :
    (0 : ℚ) ≤ 90 ∧ (90 : ℚ) ≤ 180 ∧
      SpeedCorrection.correctSpeed 20 90 = SpeedCorrection.correctSpeed 20 (360 - 90) :=
  ⟨by norm_num, by norm_num, c5_fold_symmetry 20 90 (by norm_num) (by norm_num)⟩

/-- C6: flat clamping beyond the calibrated range — for any two raw speeds
above the last calibrated threshold 150 (and at most the sentinel), the
applied correction is identical, in both variants. -/
theorem c6_flat_clamping :
    (∀ (a r1 r2 : ℚ), 150 < r1 → r1 ≤ 999 → 150 < r2 → r2 ≤ 999 →
      ∃ v1 v2, SpeedCorrection.correctSpeed r1 a = some v1 ∧
        SpeedCorrection.correctSpeed r2 a = some v2 ∧ v1 - r1 = v2 - r2) ∧
    ∀ (a r1 r2 : ℕ), 150 < r1 → r1 ≤ 255 → 150 < r2 → r2 ≤ 255 →
      ∃ v1 v2, SpeedCorrectionLite.correctSpeed r1 a = some v1 ∧
        SpeedCorrectionLite.correctSpeed r2 a = some v2 ∧
        v1 - (r1 : ℚ) = v2 - (r2 : ℚ) := by
  constructor
  · intro a r1 r2 h11 h12 h21 h22
    exact ⟨_, _, SpeedCorrection.correctSpeed_top h11 h12 a,
      SpeedCorrection.correctSpeed_top h21 h22 a, by ring⟩
  · intro a r1 r2 h11 h12 h21 h22
    exact ⟨_, _, SpeedCorrectionLite.correctSpeed_top_lite h11 h12 a,
      SpeedCorrectionLite.correctSpeed_top_lite h21 h22 a, by ring⟩

/-- Witness for C6 at angle 0 with raw speeds 200/300 (float) and
200/255 (lite). -/
theorem c6_flat_clamping_witness :
    ((150 : ℚ) < 200 ∧ (200 : ℚ) ≤ 999 ∧ (150 : ℚ) < 300 ∧ (300 : ℚ) ≤ 999 ∧
      ∃ v1 v2, SpeedCorrection.correctSpeed 200 0 = some v1 ∧
        SpeedCorrection.correctSpeed 300 0 = some v2 ∧ v1 - 200 = v2 - 300) ∧
      (150 < 200 ∧ 200 ≤ 255 ∧ 150 < 255 ∧ 255 ≤ 255 ∧
        ∃ v1 v2, SpeedCorrectionLite.correctSpeed 200 0 = some v1 ∧
          SpeedCorrectionLite.correctSpeed 255 0 = some v2 ∧
          v1 - (200 : ℚ) = v2 - (255 : ℚ)) :=
  ⟨⟨by norm_num, by norm_num, by norm_num, by norm_num,
      c6_flat_clamping.1 0 200 300 (by norm_num) (by norm_num) (by norm_num) (by norm_num)⟩,
    ⟨by norm_num, by norm_num, by norm_num, by norm_num,
      c6_flat_clamping.2 0 200 255 (by norm_num) (by norm_num) (by norm_num) (by norm_num)⟩⟩

/-- C7: the spec's concrete scenarios hold exactly in exact decimal
arithmetic: `correct_speed(20, 0) = 23.3`, `correct_speed(150, 90) = 137.9`
and `correct_speed(130, 180) = 119.7` for the float table;
`correct_speed(20, 181) = correct_speed(20, 179)` (fold-back near 180°);
and the lite variant gives `correct_speed(22, 180) = 18.0`, interpolated
between the 20 and 25 sites. -/
theorem c7_concrete_scenarios :
    SpeedCorrection.correctSpeed 20 0 = some 23.3 ∧
      SpeedCorrection.correctSpeed 150 90 = some 137.9 ∧
      SpeedCorrection.correctSpeed 130 180 = some 119.7 ∧
      SpeedCorrection.correctSpeed 20 181 = SpeedCorrection.correctSpeed 20 179 ∧
      SpeedCorrectionLite.correctSpeed 22 180 = some 18.0 := by
  refine ⟨?_, ?_, ?_, ?_, ?_⟩
  · have hscan : SpeedCorrection.speedIndexHigh 20 = 1 := by
      apply SpeedCorrection.speedIndexHigh_eq le_rfl (by norm_num)
      · show SpeedCorrection.tbl 0 0 < 20
        norm_num [show SpeedCorrection.tbl 0 0 = 0 from rfl]
      · show (20 : ℚ) ≤ SpeedCorrection.tbl 1 0
        norm_num [show SpeedCorrection.tbl 1 0 = 20 from rfl]
    simp only [SpeedCorrection.correctSpeed, hscan]
    norm_num [SpeedCorrection.foldAngle_of_le (show (0 : ℚ) ≤ 180 by norm_num)]
    rw [show (20 : ℚ) = SpeedCorrection.tbl 1 0 from rfl,
      SpeedCorrection.bracketCorrect_at_high 0 1
        (by norm_num [show SpeedCorrection.tbl 0 0 = 0 from rfl,
          show SpeedCorrection.tbl 1 0 = 20 from rfl]),
      SpeedCorrection.rowCorr_at_zero]
    norm_num [show SpeedCorrection.tbl 1 0 = 20 from rfl,
      show SpeedCorrection.tbl 1 1 = 3.3 from rfl]
  · have hscan : SpeedCorrection.speedIndexHigh 150 = 27 := by
      apply SpeedCorrection.speedIndexHigh_eq (by norm_num) (by norm_num)
      · show SpeedCorrection.tbl 26 0 < 150
        norm_num [show SpeedCorrection.tbl 26 0 = 145 from rfl]
      · show (150 : ℚ) ≤ SpeedCorrection.tbl 27 0
        norm_num [show SpeedCorrection.tbl 27 0 = 150 from rfl]
    simp only [SpeedCorrection.correctSpeed, hscan]
    norm_num [SpeedCorrection.foldAngle_of_le (show (90 : ℚ) ≤ 180 by norm_num)]
    rw [show (150 : ℚ) = SpeedCorrection.tbl 27 0 from rfl,
      SpeedCorrection.bracketCorrect_at_high 26 27
        (by norm_num [show SpeedCorrection.tbl 26 0 = 145 from rfl,
          show SpeedCorrection.tbl 27 0 = 150 from rfl]),
      SpeedCorrection.rowCorr_at_ninety]
    norm_num [show SpeedCorrection.tbl 27 0 = 150 from rfl,
      show SpeedCorrection.tbl 27 2 = -12.1 from rfl]
  · have hscan : SpeedCorrection.speedIndexHigh 130 = 23 := by
      apply SpeedCorrection.speedIndexHigh_eq (by norm_num) (by norm_num)
      · show SpeedCorrection.tbl 22 0 < 130
        norm_num [show SpeedCorrection.tbl 22 0 = 125 from rfl]
      · show (130 : ℚ) ≤ SpeedCorrection.tbl 23 0
        norm_num [show SpeedCorrection.tbl 23 0 = 130 from rfl]
    simp only [SpeedCorrection.correctSpeed, hscan]
    norm_num [SpeedCorrection.foldAngle_of_le (show (180 : ℚ) ≤ 180 by norm_num)]
    rw [show (130 : ℚ) = SpeedCorrection.tbl 23 0 from rfl,
      SpeedCorrection.bracketCorrect_at_high 22 23
        (by norm_num [show SpeedCorrection.tbl 22 0 = 125 from rfl,
          show SpeedCorrection.tbl 23 0 = 130 from rfl]),
      SpeedCorrection.rowCorr_at_oneeighty]
    norm_num [show SpeedCorrection.tbl 23 0 = 130 from rfl,
      show SpeedCorrection.tbl 23 3 = -10.3 from rfl]
  · have hfold : SpeedCorrection.foldAngle 181 = SpeedCorrection.foldAngle 179 := by
      unfold SpeedCorrection.foldAngle
      norm_num
    unfold SpeedCorrection.correctSpeed
    rw [hfold]
  · have hscan : SpeedCorrectionLite.speedIndexHigh 22 = 2 := by
      apply SpeedCorrectionLite.speedIndexHigh_eq_lite (by norm_num) (by norm_num)
      · show SpeedCorrectionLite.spd 1 < 22
        norm_num [show SpeedCorrectionLite.spd 1 = 20 from rfl]
      · show 22 ≤ SpeedCorrectionLite.spd 2
        norm_num [show SpeedCorrectionLite.spd 2 = 25 from rfl]
    simp only [SpeedCorrectionLite.correctSpeed, hscan]
    rw [SpeedCorrectionLite.foldAngle_of_le_lite (by norm_num)]
    norm_num
    rw [SpeedCorrectionLite.bracketCorrect_eq_lite]
    norm_num [SpeedCorrectionLite.rowCorrLite,
      show SpeedCorrectionLite.spd 1 = 20 from rfl,
      show SpeedCorrectionLite.spd 2 = 25 from rfl,
      show SpeedCorrectionLite.cor 1 1 = -23 from rfl,
      show SpeedCorrectionLite.cor 1 2 = -36 from rfl,
      show SpeedCorrectionLite.cor 2 1 = -27 from rfl,
      show SpeedCorrectionLite.cor 2 2 = -46 from rfl]

/-- A linear interpolation with factor in `[0, 1]` stays between any common
bounds of its endpoints. -/
theorem lerp_bounds {x y m M t : ℚ} (hx1 : m ≤ x) (hx2 : x ≤ M) (hy1 : m ≤ y)
    (hy2 : y ≤ M) (ht0 : 0 ≤ t) (ht1 : t ≤ 1) :
    m ≤ (y - x) * t + x ∧ (y - x) * t + x ≤ M := by
  constructor
  · nlinarith [mul_nonneg ht0 (sub_nonneg.mpr hy1), mul_nonneg (sub_nonneg.mpr ht1) (sub_nonneg.mpr hx1)]
  · nlinarith [mul_nonneg ht0 (sub_nonneg.mpr hy2), mul_nonneg (sub_nonneg.mpr ht1) (sub_nonneg.mpr hx2)]

namespace SpeedCorrection

/-- All shadow correction entries lie in `[-121, 100]`. -/
theorem tz_entry_bounds : ∀ i, i < 29 → ∀ j, 1 ≤ j → j ≤ 3 →
    -121 ≤ tz i j ∧ tz i j ≤ 100 := by decide

/-- All float correction entries lie in `[-12.1, 10]`. -/
theorem tbl_entry_bounds : ∀ i, i < 29 → ∀ j, 1 ≤ j → j ≤ 3 →
    -12.1 ≤ tbl i j ∧ tbl i j ≤ 10 := by
  intro i hi j hj1 hj3
  obtain ⟨ha, hb⟩ := tz_entry_bounds i hi j hj1 hj3
  rw [tbl_eq_tz]
  have ha' : (-121 : ℚ) ≤ (tz i j : ℚ) := by exact_mod_cast ha
  have hb' : (tz i j : ℚ) ≤ 100 := by exact_mod_cast hb
  constructor
  · rw [show (-12.1 : ℚ) = -121 / 10 by norm_num]
    linarith
  · linarith

/-- The angle interpolation of a row stays within the correction bounds
for any correction angle in `[0, 180]`. -/
theorem rowCorr_bounds {i : ℕ} (hi : i < 29) {ca : ℚ} (h0 : 0 ≤ ca)
    (h180 : ca ≤ 180) : -12.1 ≤ rowCorr i ca ∧ rowCorr i ca ≤ 10 := by
  unfold rowCorr
  split_ifs with h
  · have ht0 : 0 ≤ ca / 90 := by positivity
    have ht1 : ca / 90 ≤ 1 := by
      rw [div_le_one (by norm_num : (0 : ℚ) < 90)]
      exact h
    exact lerp_bounds (tbl_entry_bounds i hi 1 (by omega) (by omega)).1
      (tbl_entry_bounds i hi 1 (by omega) (by omega)).2
      (tbl_entry_bounds i hi 2 (by omega) (by omega)).1
      (tbl_entry_bounds i hi 2 (by omega) (by omega)).2 ht0 ht1
  · push_neg at h
    have ht0 : 0 ≤ (ca - 90) / 90 := by
      apply div_nonneg _ (by norm_num)
      linarith
    have ht1 : (ca - 90) / 90 ≤ 1 := by
      rw [div_le_one (by norm_num : (0 : ℚ) < 90)]
      linarith
    exact lerp_bounds (tbl_entry_bounds i hi 2 (by omega) (by omega)).1
      (tbl_entry_bounds i hi 2 (by omega) (by omega)).2
      (tbl_entry_bounds i hi 3 (by omega) (by omega)).1
      (tbl_entry_bounds i hi 3 (by omega) (by omega)).2 ht0 ht1

end SpeedCorrection

namespace SpeedCorrectionLite

/-- All lite correction entries lie in `[-121, 100]`. -/
theorem cor_entry_bounds : ∀ i, i < 29 → ∀ j, j < 3 →
    -121 ≤ cor i j ∧ cor i j ≤ 100 := by decide

/-- The lite angle interpolation of a row stays within the scaled
correction bounds for any correction angle in `[0, 180]`. -/
theorem rowCorrLite_bounds {i : ℕ} (hi : i < 29) {ca : ℚ} (h0 : 0 ≤ ca)
    (h180 : ca ≤ 180) : -121 ≤ rowCorrLite i ca ∧ rowCorrLite i ca ≤ 100 := by
  have hb : ∀ j, j < 3 → (-121 : ℚ) ≤ (cor i j : ℚ) ∧ (cor i j : ℚ) ≤ 100 := by
    intro j hj
    obtain ⟨ha, hb⟩ := cor_entry_bounds i hi j hj
    exact ⟨by exact_mod_cast ha, by exact_mod_cast hb⟩
  unfold rowCorrLite
  split_ifs with h
  · have ht0 : 0 ≤ ca / 90 := by positivity
    have ht1 : ca / 90 ≤ 1 := by
      rw [div_le_one (by norm_num : (0 : ℚ) < 90)]
      exact h
    exact lerp_bounds (hb 0 (by omega)).1 (hb 0 (by omega)).2
      (hb 1 (by omega)).1 (hb 1 (by omega)).2 ht0 ht1
  · push_neg at h
    have ht0 : 0 ≤ (ca - 90) / 90 := by
      apply div_nonneg _ (by norm_num)
      linarith
    have ht1 : (ca - 90) / 90 ≤ 1 := by
      rw [div_le_one (by norm_num : (0 : ℚ) < 90)]
      linarith
    exact lerp_bounds (hb 1 (by omega)).1 (hb 1 (by omega)).2
      (hb 2 (by omega)).1 (hb 2 (by omega)).2 ht0 ht1

/-- At the high site the lite speed factor is exactly one. -/
theorem bracketCorrect_at_high_lite (lo hi : ℕ) (h : spd lo < spd hi) (z : ℤ) :
    bracketCorrect lo hi (spd hi) z = (spd hi : ℚ) + rowCorrLite hi (z : ℚ) / 10 := by
  rw [bracketCorrect_eq_lite]
  have h' : (spd lo : ℚ) < (spd hi : ℚ) := by exact_mod_cast h
  have hne : (spd hi : ℚ) - (spd lo : ℚ) ≠ 0 := sub_ne_zero.mpr (ne_of_gt h')
  rw [div_self hne]
  ring

/-- At the low site the lite speed factor is exactly zero. -/
theorem bracketCorrect_at_low_lite (lo hi : ℕ) (z : ℤ) :
    bracketCorrect lo hi (spd lo) z = (spd lo : ℚ) + rowCorrLite lo (z : ℚ) / 10 := by
  rw [bracketCorrect_eq_lite]
  rw [sub_self, zero_div, mul_zero]
  ring

end SpeedCorrectionLite

/-- C8: continuity at bracket boundaries — at every non-sentinel tabulated
threshold with positive speed (indices 1–27), the interpolation body
evaluated with the bracket below (rows i-1, i) at raw speed = threshold i
agrees with the body evaluated with the bracket above (rows i, i+1), in
both variants: the piecewise-linear corrected speed has no jump at a
tabulated threshold. -/
theorem c8_bracket_continuity :
    (∀ (i : ℕ) (a : ℚ), 1 ≤ i → i ≤ 27 → 0 ≤ a → a ≤ 360 →
      SpeedCorrection.bracketCorrect (i - 1) i (SpeedCorrection.tbl i 0)
          (SpeedCorrection.foldAngle a)
        = SpeedCorrection.bracketCorrect i (i + 1) (SpeedCorrection.tbl i 0)
            (SpeedCorrection.foldAngle a)) ∧
    ∀ i a : ℕ, 1 ≤ i → i ≤ 27 → a ≤ 255 →
      SpeedCorrectionLite.bracketCorrect (i - 1) i (SpeedCorrectionLite.spd i)
          (SpeedCorrectionLite.foldAngle a)
        = SpeedCorrectionLite.bracketCorrect i (i + 1) (SpeedCorrectionLite.spd i)
            (SpeedCorrectionLite.foldAngle a) := by
  constructor
  · intro i a h1 h27 _ _
    have hmono : SpeedCorrection.tbl (i - 1) 0 < SpeedCorrection.tbl i 0 := by
      have h := SpeedCorrection.tbl_strictMono (i - 1) (by omega)
      have he : i - 1 + 1 = i := by omega
      rwa [he] at h
    rw [SpeedCorrection.bracketCorrect_at_high (i - 1) i hmono,
      SpeedCorrection.bracketCorrect_at_low i (i + 1)]
  · intro i a h1 h27 _
    have hmono : SpeedCorrectionLite.spd (i - 1) < SpeedCorrectionLite.spd i := by
      have h := SpeedCorrectionLite.spd_strictMono_lite (i - 1) (by omega)
      have he : i - 1 + 1 = i := by omega
      rwa [he] at h
    rw [SpeedCorrectionLite.bracketCorrect_at_high_lite (i - 1) i hmono,
      SpeedCorrectionLite.bracketCorrect_at_low_lite i (i + 1)]

/-- Witness for C8 at threshold index 1 and angle 45 in both variants. -/
theorem c8_bracket_continuity_witness :
    (1 ≤ 1 ∧ 1 ≤ 27 ∧ (0 : ℚ) ≤ 45 ∧ (45 : ℚ) ≤ 360 ∧
      SpeedCorrection.bracketCorrect 0 1 (SpeedCorrection.tbl 1 0)
          (SpeedCorrection.foldAngle 45)
        = SpeedCorrection.bracketCorrect 1 2 (SpeedCorrection.tbl 1 0)
            (SpeedCorrection.foldAngle 45)) ∧
      SpeedCorrectionLite.bracketCorrect 0 1 (SpeedCorrectionLite.spd 1)
          (SpeedCorrectionLite.foldAngle 45)
        = SpeedCorrectionLite.bracketCorrect 1 2 (SpeedCorrectionLite.spd 1)
            (SpeedCorrectionLite.foldAngle 45) :=
  ⟨⟨le_rfl, by norm_num, by norm_num, by norm_num,
      c8_bracket_continuity.1 1 45 le_rfl (by norm_num) (by norm_num) (by norm_num)⟩,
    c8_bracket_continuity.2 1 45 le_rfl (by norm_num) (by norm_num)⟩

/-- C9: for every positive raw speed (within the input range) the scan
yields `speedIndexHigh` in `[1, 28]`, hence `speedIndexLow` in `[0, 27]`;
every table access is in bounds (the routine returns a value, `some`), and
the speed delta between the two bracket rows is strictly positive, so the
division computing the speed factor never divides by zero. -/
theorem c9_scan_in_bounds :
    (∀ rawSpeed : ℚ, 0 < rawSpeed →
      1 ≤ SpeedCorrection.speedIndexHigh rawSpeed ∧
        SpeedCorrection.speedIndexHigh rawSpeed ≤ 28 ∧
        SpeedCorrection.speedIndexHigh rawSpeed - 1 ≤ 27 ∧
        0 < SpeedCorrection.tbl (SpeedCorrection.speedIndexHigh rawSpeed) 0
              - SpeedCorrection.tbl (SpeedCorrection.speedIndexHigh rawSpeed - 1) 0 ∧
        ∀ angle : ℚ, ∃ v, SpeedCorrection.correctSpeed rawSpeed angle = some v) ∧
    ∀ rawSpeed : ℕ, 0 < rawSpeed → rawSpeed ≤ 255 →
      1 ≤ SpeedCorrectionLite.speedIndexHigh rawSpeed ∧
        SpeedCorrectionLite.speedIndexHigh rawSpeed ≤ 28 ∧
        SpeedCorrectionLite.speedIndexHigh rawSpeed - 1 ≤ 27 ∧
        SpeedCorrectionLite.spd (SpeedCorrectionLite.speedIndexHigh rawSpeed - 1)
            < SpeedCorrectionLite.spd (SpeedCorrectionLite.speedIndexHigh rawSpeed) ∧
        ∀ angle : ℕ, ∃ v, SpeedCorrectionLite.correctSpeed rawSpeed angle = some v := by
  constructor
  · intro r h0
    have hk : 1 ≤ SpeedCorrection.speedIndexHigh r ∧
        SpeedCorrection.speedIndexHigh r ≤ 28 := by
      by_cases h : r ≤ 999
      · obtain ⟨a, b, _, _⟩ := SpeedCorrection.speedIndexHigh_bracket h0 h
        exact ⟨a, b⟩
      · push_neg at h
        rw [SpeedCorrection.speedIndexHigh_over h]
        norm_num
    obtain ⟨h1, h2⟩ := hk
    have hdelta : SpeedCorrection.tbl (SpeedCorrection.speedIndexHigh r - 1) 0
        < SpeedCorrection.tbl (SpeedCorrection.speedIndexHigh r) 0 := by
      have h := SpeedCorrection.tbl_strictMono (SpeedCorrection.speedIndexHigh r - 1)
        (by omega)
      rwa [Nat.sub_add_cancel h1] at h
    refine ⟨h1, h2, by omega, by linarith, ?_⟩
    intro a
    simp only [SpeedCorrection.correctSpeed]
    rw [if_neg (by omega)]
    exact ⟨_, rfl⟩
  · intro r h0 h255
    obtain ⟨h1, h2, _, _⟩ := SpeedCorrectionLite.speedIndexHigh_bracket_lite h0 h255
    have hdelta : SpeedCorrectionLite.spd (SpeedCorrectionLite.speedIndexHigh r - 1)
        < SpeedCorrectionLite.spd (SpeedCorrectionLite.speedIndexHigh r) := by
      have h := SpeedCorrectionLite.spd_strictMono_lite
        (SpeedCorrectionLite.speedIndexHigh r - 1) (by omega)
      rwa [Nat.sub_add_cancel h1] at h
    refine ⟨h1, h2, by omega, hdelta, ?_⟩
    intro a
    simp only [SpeedCorrectionLite.correctSpeed]
    rw [if_neg (by omega)]
    exact ⟨_, rfl⟩

/-- Witness for C9 at raw speed 20 in both variants. -/
theorem c9_scan_in_bounds_witness :
    ((0 : ℚ) < 20 ∧
      (1 ≤ SpeedCorrection.speedIndexHigh 20 ∧
        SpeedCorrection.speedIndexHigh 20 ≤ 28 ∧
        SpeedCorrection.speedIndexHigh 20 - 1 ≤ 27 ∧
        0 < SpeedCorrection.tbl (SpeedCorrection.speedIndexHigh 20) 0
              - SpeedCorrection.tbl (SpeedCorrection.speedIndexHigh 20 - 1) 0 ∧
        ∀ angle : ℚ, ∃ v, SpeedCorrection.correctSpeed 20 angle = some v)) ∧
      0 < 20 ∧ 20 ≤ 255 ∧
        (1 ≤ SpeedCorrectionLite.speedIndexHigh 20 ∧
          SpeedCorrectionLite.speedIndexHigh 20 ≤ 28 ∧
          SpeedCorrectionLite.speedIndexHigh 20 - 1 ≤ 27 ∧
          SpeedCorrectionLite.spd (SpeedCorrectionLite.speedIndexHigh 20 - 1)
              < SpeedCorrectionLite.spd (SpeedCorrectionLite.speedIndexHigh 20) ∧
          ∀ angle : ℕ, ∃ v, SpeedCorrectionLite.correctSpeed 20 angle = some v) :=
  ⟨⟨by norm_num, c9_scan_in_bounds.1 20 (by norm_num)⟩,
    by norm_num, by norm_num, c9_scan_in_bounds.2 20 (by norm_num) (by norm_num)⟩

/-- C10: for raw speed in the table's range and angle in `[0, 360]` the
folded angle lies in `[0, 180]` (so each angle factor lies in `[0, 1]`),
the speed factor lies in `[0, 1]`, the blended correction is a bilinear
convex combination of four table entries, and the applied correction
`correct_speed(raw, angle) - raw` lies between the table's extreme
true-unit corrections, `-12.1` and `10.0`, in both variants. -/
theorem c10_correction_bounded :
    (∀ rawSpeed angle : ℚ, 0 < rawSpeed → rawSpeed ≤ 999 → 0 ≤ angle → angle ≤ 360 →
      (0 ≤ SpeedCorrection.foldAngle angle ∧ SpeedCorrection.foldAngle angle ≤ 180) ∧
        (0 ≤ (rawSpeed - SpeedCorrection.tbl (SpeedCorrection.speedIndexHigh rawSpeed - 1) 0)
              / (SpeedCorrection.tbl (SpeedCorrection.speedIndexHigh rawSpeed) 0
                  - SpeedCorrection.tbl (SpeedCorrection.speedIndexHigh rawSpeed - 1) 0) ∧
          (rawSpeed - SpeedCorrection.tbl (SpeedCorrection.speedIndexHigh rawSpeed - 1) 0)
              / (SpeedCorrection.tbl (SpeedCorrection.speedIndexHigh rawSpeed) 0
                  - SpeedCorrection.tbl (SpeedCorrection.speedIndexHigh rawSpeed - 1) 0) ≤ 1) ∧
        ∃ v, SpeedCorrection.correctSpeed rawSpeed angle = some v ∧
          -12.1 ≤ v - rawSpeed ∧ v - rawSpeed ≤ 10) ∧
    ∀ rawSpeed angle : ℕ, 0 < rawSpeed → rawSpeed ≤ 255 → angle ≤ 255 →
      ∃ v, SpeedCorrectionLite.correctSpeed rawSpeed angle = some v ∧
        -12.1 ≤ v - (rawSpeed : ℚ) ∧ v - (rawSpeed : ℚ) ≤ 10 := by
  constructor
  · intro r a h0 h999 ha0 ha360
    obtain ⟨h1, h2, hlo, hhi⟩ := SpeedCorrection.speedIndexHigh_bracket h0 h999
    have hmono : SpeedCorrection.tbl (SpeedCorrection.speedIndexHigh r - 1) 0
        < SpeedCorrection.tbl (SpeedCorrection.speedIndexHigh r) 0 := by
      have h := SpeedCorrection.tbl_strictMono (SpeedCorrection.speedIndexHigh r - 1)
        (by omega)
      rwa [Nat.sub_add_cancel h1] at h
    have hsf0 : 0 ≤ (r - SpeedCorrection.tbl (SpeedCorrection.speedIndexHigh r - 1) 0)
        / (SpeedCorrection.tbl (SpeedCorrection.speedIndexHigh r) 0
            - SpeedCorrection.tbl (SpeedCorrection.speedIndexHigh r - 1) 0) :=
      div_nonneg (by linarith) (by linarith)
    have hsf1 : (r - SpeedCorrection.tbl (SpeedCorrection.speedIndexHigh r - 1) 0)
        / (SpeedCorrection.tbl (SpeedCorrection.speedIndexHigh r) 0
            - SpeedCorrection.tbl (SpeedCorrection.speedIndexHigh r - 1) 0) ≤ 1 := by
      rw [div_le_one (by linarith)]
      linarith
    have hfold := SpeedCorrection.foldAngle_mem ha0 ha360
    have hrl := SpeedCorrection.rowCorr_bounds
      (i := SpeedCorrection.speedIndexHigh r - 1) (by omega) hfold.1 hfold.2
    have hrh := SpeedCorrection.rowCorr_bounds
      (i := SpeedCorrection.speedIndexHigh r) (by omega) hfold.1 hfold.2
    obtain ⟨hb1, hb2⟩ := lerp_bounds hrl.1 hrl.2 hrh.1 hrh.2 hsf0 hsf1
    refine ⟨hfold, ⟨hsf0, hsf1⟩,
      SpeedCorrection.bracketCorrect (SpeedCorrection.speedIndexHigh r - 1)
        (SpeedCorrection.speedIndexHigh r) r (SpeedCorrection.foldAngle a), ?_, ?_, ?_⟩
    · simp only [SpeedCorrection.correctSpeed]
      rw [if_neg (by omega)]
    · have hdiff : SpeedCorrection.bracketCorrect (SpeedCorrection.speedIndexHigh r - 1)
          (SpeedCorrection.speedIndexHigh r) r (SpeedCorrection.foldAngle a) - r
          = (SpeedCorrection.rowCorr (SpeedCorrection.speedIndexHigh r)
                (SpeedCorrection.foldAngle a)
              - SpeedCorrection.rowCorr (SpeedCorrection.speedIndexHigh r - 1)
                  (SpeedCorrection.foldAngle a))
            * ((r - SpeedCorrection.tbl (SpeedCorrection.speedIndexHigh r - 1) 0)
              / (SpeedCorrection.tbl (SpeedCorrection.speedIndexHigh r) 0
                  - SpeedCorrection.tbl (SpeedCorrection.speedIndexHigh r - 1) 0))
            + SpeedCorrection.rowCorr (SpeedCorrection.speedIndexHigh r - 1)
                (SpeedCorrection.foldAngle a) := by
        rw [SpeedCorrection.bracketCorrect_eq]
        ring
      rw [hdiff]
      exact hb1
    · have hdiff : SpeedCorrection.bracketCorrect (SpeedCorrection.speedIndexHigh r - 1)
          (SpeedCorrection.speedIndexHigh r) r (SpeedCorrection.foldAngle a) - r
          = (SpeedCorrection.rowCorr (SpeedCorrection.speedIndexHigh r)
                (SpeedCorrection.foldAngle a)
              - SpeedCorrection.rowCorr (SpeedCorrection.speedIndexHigh r - 1)
                  (SpeedCorrection.foldAngle a))
            * ((r - SpeedCorrection.tbl (SpeedCorrection.speedIndexHigh r - 1) 0)
              / (SpeedCorrection.tbl (SpeedCorrection.speedIndexHigh r) 0
                  - SpeedCorrection.tbl (SpeedCorrection.speedIndexHigh r - 1) 0))
            + SpeedCorrection.rowCorr (SpeedCorrection.speedIndexHigh r - 1)
                (SpeedCorrection.foldAngle a) := by
        rw [SpeedCorrection.bracketCorrect_eq]
        ring
      rw [hdiff]
      exact hb2
  · intro r a h0 h255 ha
    obtain ⟨h1, h2, hlo, hhi⟩ := SpeedCorrectionLite.speedIndexHigh_bracket_lite h0 h255
    have hmono : SpeedCorrectionLite.spd (SpeedCorrectionLite.speedIndexHigh r - 1)
        < SpeedCorrectionLite.spd (SpeedCorrectionLite.speedIndexHigh r) := by
      have h := SpeedCorrectionLite.spd_strictMono_lite
        (SpeedCorrectionLite.speedIndexHigh r - 1) (by omega)
      rwa [Nat.sub_add_cancel h1] at h
    have hloq : (SpeedCorrectionLite.spd (SpeedCorrectionLite.speedIndexHigh r - 1) : ℚ)
        < (r : ℚ) := by exact_mod_cast hlo
    have hhiq : (r : ℚ) ≤ (SpeedCorrectionLite.spd (SpeedCorrectionLite.speedIndexHigh r) : ℚ) := by
      exact_mod_cast hhi
    have hmonoq : (SpeedCorrectionLite.spd (SpeedCorrectionLite.speedIndexHigh r - 1) : ℚ)
        < (SpeedCorrectionLite.spd (SpeedCorrectionLite.speedIndexHigh r) : ℚ) := by
      exact_mod_cast hmono
    have hsf0 : 0 ≤ ((r : ℚ)
          - (SpeedCorrectionLite.spd (SpeedCorrectionLite.speedIndexHigh r - 1) : ℚ))
        / ((SpeedCorrectionLite.spd (SpeedCorrectionLite.speedIndexHigh r) : ℚ)
            - (SpeedCorrectionLite.spd (SpeedCorrectionLite.speedIndexHigh r - 1) : ℚ)) :=
      div_nonneg (by linarith) (by linarith)
    have hsf1 : ((r : ℚ)
          - (SpeedCorrectionLite.spd (SpeedCorrectionLite.speedIndexHigh r - 1) : ℚ))
        / ((SpeedCorrectionLite.spd (SpeedCorrectionLite.speedIndexHigh r) : ℚ)
            - (SpeedCorrectionLite.spd (SpeedCorrectionLite.speedIndexHigh r - 1) : ℚ)) ≤ 1 := by
      rw [div_le_one (by linarith)]
      linarith
    have hfold := SpeedCorrectionLite.foldAngle_mem_lite ha
    have hfq0 : (0 : ℚ) ≤ ((SpeedCorrectionLite.foldAngle a : ℤ) : ℚ) := by
      exact_mod_cast hfold.1
    have hfq1 : ((SpeedCorrectionLite.foldAngle a : ℤ) : ℚ) ≤ 180 := by
      exact_mod_cast hfold.2
    have hrl := SpeedCorrectionLite.rowCorrLite_bounds
      (i := SpeedCorrectionLite.speedIndexHigh r - 1) (by omega) hfq0 hfq1
    have hrh := SpeedCorrectionLite.rowCorrLite_bounds
      (i := SpeedCorrectionLite.speedIndexHigh r) (by omega) hfq0 hfq1
    obtain ⟨hb1, hb2⟩ := lerp_bounds hrl.1 hrl.2 hrh.1 hrh.2 hsf0 hsf1
    refine ⟨SpeedCorrectionLite.bracketCorrect (SpeedCorrectionLite.speedIndexHigh r - 1)
      (SpeedCorrectionLite.speedIndexHigh r) r (SpeedCorrectionLite.foldAngle a),
      ?_, ?_, ?_⟩
    · simp only [SpeedCorrectionLite.correctSpeed]
      rw [if_neg (by omega)]
    · have hdiff : SpeedCorrectionLite.bracketCorrect
          (SpeedCorrectionLite.speedIndexHigh r - 1) (SpeedCorrectionLite.speedIndexHigh r)
          r (SpeedCorrectionLite.foldAngle a) - (r : ℚ)
          = ((SpeedCorrectionLite.rowCorrLite (SpeedCorrectionLite.speedIndexHigh r)
                  ((SpeedCorrectionLite.foldAngle a : ℤ) : ℚ)
                - SpeedCorrectionLite.rowCorrLite (SpeedCorrectionLite.speedIndexHigh r - 1)
                    ((SpeedCorrectionLite.foldAngle a : ℤ) : ℚ))
              * (((r : ℚ)
                    - (SpeedCorrectionLite.spd (SpeedCorrectionLite.speedIndexHigh r - 1) : ℚ))
                / ((SpeedCorrectionLite.spd (SpeedCorrectionLite.speedIndexHigh r) : ℚ)
                    - (SpeedCorrectionLite.spd (SpeedCorrectionLite.speedIndexHigh r - 1) : ℚ)))
              + SpeedCorrectionLite.rowCorrLite (SpeedCorrectionLite.speedIndexHigh r - 1)
                  ((SpeedCorrectionLite.foldAngle a : ℤ) : ℚ)) / 10 := by
        rw [SpeedCorrectionLite.bracketCorrect_eq_lite]
        ring
      rw [hdiff]
      rw [show (-12.1 : ℚ) = -121 / 10 by norm_num]
      linarith
    · have hdiff : SpeedCorrectionLite.bracketCorrect
          (SpeedCorrectionLite.speedIndexHigh r - 1) (SpeedCorrectionLite.speedIndexHigh r)
          r (SpeedCorrectionLite.foldAngle a) - (r : ℚ)
          = ((SpeedCorrectionLite.rowCorrLite (SpeedCorrectionLite.speedIndexHigh r)
                  ((SpeedCorrectionLite.foldAngle a : ℤ) : ℚ)
                - SpeedCorrectionLite.rowCorrLite (SpeedCorrectionLite.speedIndexHigh r - 1)
                    ((SpeedCorrectionLite.foldAngle a : ℤ) : ℚ))
              * (((r : ℚ)
                    - (SpeedCorrectionLite.spd (SpeedCorrectionLite.speedIndexHigh r - 1) : ℚ))
                / ((SpeedCorrectionLite.spd (SpeedCorrectionLite.speedIndexHigh r) : ℚ)
                    - (SpeedCorrectionLite.spd (SpeedCorrectionLite.speedIndexHigh r - 1) : ℚ)))
              + SpeedCorrectionLite.rowCorrLite (SpeedCorrectionLite.speedIndexHigh r - 1)
                  ((SpeedCorrectionLite.foldAngle a : ℤ) : ℚ)) / 10 := by
        rw [SpeedCorrectionLite.bracketCorrect_eq_lite]
        ring
      rw [hdiff]
      linarith

/-- Witness for C10 at raw speed 20, angle 45 in both variants. -/
theorem c10_correction_bounded_witness :
    ((0 : ℚ) < 20 ∧ (20 : ℚ) ≤ 999 ∧ (0 : ℚ) ≤ 45 ∧ (45 : ℚ) ≤ 360 ∧
      ((0 ≤ SpeedCorrection.foldAngle 45 ∧ SpeedCorrection.foldAngle 45 ≤ 180) ∧
        (0 ≤ (20 - SpeedCorrection.tbl (SpeedCorrection.speedIndexHigh 20 - 1) 0)
              / (SpeedCorrection.tbl (SpeedCorrection.speedIndexHigh 20) 0
                  - SpeedCorrection.tbl (SpeedCorrection.speedIndexHigh 20 - 1) 0) ∧
          (20 - SpeedCorrection.tbl (SpeedCorrection.speedIndexHigh 20 - 1) 0)
              / (SpeedCorrection.tbl (SpeedCorrection.speedIndexHigh 20) 0
                  - SpeedCorrection.tbl (SpeedCorrection.speedIndexHigh 20 - 1) 0) ≤ 1) ∧
        ∃ v, SpeedCorrection.correctSpeed 20 45 = some v ∧
          -12.1 ≤ v - 20 ∧ v - 20 ≤ 10)) ∧
      0 < 20 ∧ 20 ≤ 255 ∧ 45 ≤ 255 ∧
        ∃ v, SpeedCorrectionLite.correctSpeed 20 45 = some v ∧
          -12.1 ≤ v - (20 : ℚ) ∧ v - (20 : ℚ) ≤ 10 :=
  ⟨⟨by norm_num, by norm_num, by norm_num, by norm_num,
      c10_correction_bounded.1 20 45 (by norm_num) (by norm_num) (by norm_num) (by norm_num)⟩,
    by norm_num, by norm_num, by norm_num,
    c10_correction_bounded.2 20 45 (by norm_num) (by norm_num) (by norm_num)⟩

namespace Spec

/-- The spec view of the float table has 29 rows. -/
theorem floatTable_length : floatTable.length = 29 := by
  simp [floatTable]

/-- Row access in the spec view of the float table. -/
theorem floatTable_getD (i : ℕ) (hi : i < 29) :
    floatTable.getD i ⟨0, 0, 0, 0⟩ =
      ⟨SpeedCorrection.tbl i 0, SpeedCorrection.tbl i 1,
        SpeedCorrection.tbl i 2, SpeedCorrection.tbl i 3⟩ := by
  simp [floatTable, List.getD_eq_getElem?_getD, List.getElem?_map, List.getElem?_range hi]

/-- The spec view of the lite table has 29 rows. -/
theorem liteTable_length : liteTable.length = 29 := by
  simp [liteTable]

/-- Row access in the spec view of the lite table. -/
theorem liteTable_getD (i : ℕ) (hi : i < 29) :
    liteTable.getD i ⟨0, 0, 0, 0⟩ =
      ⟨(SpeedCorrectionLite.spd i : ℚ), (SpeedCorrectionLite.cor i 0 : ℚ),
        (SpeedCorrectionLite.cor i 1 : ℚ), (SpeedCorrectionLite.cor i 2 : ℚ)⟩ := by
  simp [liteTable, List.getD_eq_getElem?_getD, List.getElem?_map, List.getElem?_range hi]

/-- The first-row-at-or-above scan returns the index whose row first
satisfies the threshold test. -/
theorem firstRowGE_eq (raw : ℚ) :
    ∀ (l : List CalibrationRow) (k : ℕ), k < l.length →
      raw ≤ (l.getD k ⟨0, 0, 0, 0⟩).speed_threshold →
      (∀ j, j < k → ¬ raw ≤ (l.getD j ⟨0, 0, 0, 0⟩).speed_threshold) →
      firstRowGE raw l = k := by
  intro l
  induction l with
  | nil =>
    intro k hk _ _
    simp at hk
  | cons r rs ih =>
    intro k hk hhigh hlow
    cases k with
    | zero =>
      rw [List.getD_cons_zero] at hhigh
      simp only [firstRowGE]
      rw [if_pos hhigh]
    | succ m =>
      have h0 : ¬ raw ≤ r.speed_threshold := by
        have h := hlow 0 (Nat.succ_pos m)
        rwa [List.getD_cons_zero] at h
      simp only [firstRowGE]
      rw [if_neg h0]
      have hm := ih m (by simpa using hk) (by rwa [List.getD_cons_succ] at hhigh)
        fun j hj => by
          have h := hlow (j + 1) (by omega)
          rwa [List.getD_cons_succ] at h
      omega

end Spec

namespace SpeedCorrection

/-- The code's angle fold `180 - (angle - 180)` equals the spec's
`360 - angle` formula. -/
theorem foldAngle_eq_spec (a : ℚ) :
    foldAngle a = if 180 < a then 360 - a else a := by
  unfold foldAngle
  split_ifs with h
  · ring
  · rfl

/-- The spec's row correction on a float-table row is the code's rowCorr. -/
theorem rowCorrection_eq_rowCorr (i : ℕ) (hi : i < 29) (ca : ℚ) :
    Spec.rowCorrection (Spec.floatTable.getD i ⟨0, 0, 0, 0⟩) ca = rowCorr i ca := by
  rw [Spec.floatTable_getD i hi]
  simp only [Spec.rowCorrection, rowCorr]
  split_ifs with h
  · ring
  · ring

/-- On the table's range the float routine computes exactly the spec's
reference algorithm at scale 1. -/
theorem correctSpeed_eq_refFloat {raw : ℚ} (h0 : 0 < raw) (h999 : raw ≤ 999) (a : ℚ) :
    correctSpeed raw a = some (Spec.refCorrectSpeed Spec.floatTable 1 raw a) := by
  obtain ⟨h1, h2, hlo, hhi⟩ := speedIndexHigh_bracket h0 h999
  have hfirst : Spec.firstRowGE raw Spec.floatTable = speedIndexHigh raw := by
    apply Spec.firstRowGE_eq raw Spec.floatTable (speedIndexHigh raw)
    · rw [Spec.floatTable_length]
      omega
    · rw [Spec.floatTable_getD _ (by omega)]
      exact hhi
    · intro j hj
      rw [Spec.floatTable_getD j (by omega)]
      push_neg
      calc tbl j 0 ≤ tbl (speedIndexHigh raw - 1) 0 :=
            tbl_mono_le j (speedIndexHigh raw - 1) (by omega) (by omega)
        _ < raw := hlo
  simp only [correctSpeed]
  rw [if_neg (by omega)]
  simp only [Spec.refCorrectSpeed, hfirst]
  rw [rowCorrection_eq_rowCorr _ (by omega), rowCorrection_eq_rowCorr _ (by omega),
    Spec.floatTable_getD _ (by omega), Spec.floatTable_getD _ (by omega)]
  rw [bracketCorrect_eq, foldAngle_eq_spec]
  exact congrArg some (by ring)

end SpeedCorrection

namespace SpeedCorrectionLite

/-- The lite angle fold, cast to ℚ, equals the spec's `360 - angle`
formula for inputs that fit a byte. -/
theorem foldAngle_cast_spec {a : ℕ} (ha : a ≤ 255) :
    ((foldAngle a : ℤ) : ℚ) = if 180 < (a : ℚ) then 360 - (a : ℚ) else (a : ℚ) := by
  by_cases h : 180 < a
  · rw [foldAngle_of_gt_lite h ha, if_pos (by exact_mod_cast h)]
    push_cast
    ring
  · rw [foldAngle_of_le_lite (by omega), if_neg (by exact_mod_cast h)]
    push_cast
    ring

/-- The spec's row correction on a lite-table row is the code's
rowCorrLite. -/
theorem rowCorrection_eq_rowCorrLite (i : ℕ) (hi : i < 29) (ca : ℚ) :
    Spec.rowCorrection (Spec.liteTable.getD i ⟨0, 0, 0, 0⟩) ca = rowCorrLite i ca := by
  rw [Spec.liteTable_getD i hi]
  simp only [Spec.rowCorrection, rowCorrLite]
  split_ifs with h
  · ring
  · ring

/-- On the byte range the lite routine computes exactly the spec's
reference algorithm at scale 10. -/
theorem correctSpeed_eq_refLite {raw : ℕ} (h0 : 0 < raw) (h255 : raw ≤ 255)
    {a : ℕ} (ha : a ≤ 255) :
    correctSpeed raw a = some (Spec.refCorrectSpeed Spec.liteTable 10 (raw : ℚ) (a : ℚ)) := by
  obtain ⟨h1, h2, hlo, hhi⟩ := speedIndexHigh_bracket_lite h0 h255
  have hfirst : Spec.firstRowGE (raw : ℚ) Spec.liteTable = speedIndexHigh raw := by
    apply Spec.firstRowGE_eq (raw : ℚ) Spec.liteTable (speedIndexHigh raw)
    · rw [Spec.liteTable_length]
      omega
    · rw [Spec.liteTable_getD _ (by omega)]
      show (raw : ℚ) ≤ (spd (speedIndexHigh raw) : ℚ)
      exact_mod_cast hhi
    · intro j hj
      rw [Spec.liteTable_getD j (by omega)]
      push_neg
      show (spd j : ℚ) < (raw : ℚ)
      have hle : spd j ≤ spd (speedIndexHigh raw - 1) :=
        spd_mono_le_lite j (speedIndexHigh raw - 1) (by omega) (by omega)
      exact_mod_cast lt_of_le_of_lt hle hlo
  simp only [correctSpeed]
  rw [if_neg (by omega)]
  simp only [Spec.refCorrectSpeed, hfirst]
  rw [rowCorrection_eq_rowCorrLite _ (by omega), rowCorrection_eq_rowCorrLite _ (by omega),
    Spec.liteTable_getD _ (by omega), Spec.liteTable_getD _ (by omega)]
  rw [bracketCorrect_eq_lite, foldAngle_cast_spec ha]
  exact congrArg some (by ring)

end SpeedCorrectionLite

/-- C1: for raw speed in the table's range and angle in the input range,
both implementations return exactly the spec's reference bilinear
interpolation on their table — fold the angle, bracket the speed, angle
interpolation with factor correction_angle/90 or (correction_angle-90)/90,
blend with speed factor, divide by the storage scale (1 float, 10 lite),
add to the raw speed. -/
theorem c1_matches_reference_algorithm :
    (∀ rawSpeed angle : ℚ, 0 < rawSpeed → rawSpeed ≤ 999 → 0 ≤ angle → angle ≤ 360 →
      SpeedCorrection.correctSpeed rawSpeed angle
        = some (Spec.refCorrectSpeed Spec.floatTable 1 rawSpeed angle)) ∧
    ∀ rawSpeed angle : ℕ, 0 < rawSpeed → rawSpeed ≤ 255 → angle ≤ 255 →
      SpeedCorrectionLite.correctSpeed rawSpeed angle
        = some (Spec.refCorrectSpeed Spec.liteTable 10 (rawSpeed : ℚ) (angle : ℚ)) := by
  constructor
  · intro r a h0 h999 _ _
    exact SpeedCorrection.correctSpeed_eq_refFloat h0 h999 a
  · intro r a h0 h255 ha
    exact SpeedCorrectionLite.correctSpeed_eq_refLite h0 h255 ha

/-- Witness for C1 at raw speed 20, angle 0 (float) and raw speed 22,
angle 180 (lite). -/
theorem c1_matches_reference_algorithm_witness :
    ((0 : ℚ) < 20 ∧ (20 : ℚ) ≤ 999 ∧ (0 : ℚ) ≤ 0 ∧ (0 : ℚ) ≤ 360 ∧
      SpeedCorrection.correctSpeed 20 0
        = some (Spec.refCorrectSpeed Spec.floatTable 1 20 0)) ∧
      0 < 22 ∧ 22 ≤ 255 ∧ 180 ≤ 255 ∧
        SpeedCorrectionLite.correctSpeed 22 180
          = some (Spec.refCorrectSpeed Spec.liteTable 10 (22 : ℚ) (180 : ℚ)) :=
  ⟨⟨by norm_num, by norm_num, le_rfl, by norm_num,
      c1_matches_reference_algorithm.1 20 0 (by norm_num) (by norm_num) le_rfl (by norm_num)⟩,
    by norm_num, by norm_num, by norm_num,
    by
      have h := c1_matches_reference_algorithm.2 22 180 (by norm_num) (by norm_num) (by norm_num)
      exact_mod_cast h⟩

/-- Every lite correction entry equals the float table's shadow (ten-times)
entry of the corresponding column. -/
theorem cor_eq_tz : ∀ i, i < 29 → ∀ j, j < 3 →
    SpeedCorrectionLite.cor i j = SpeedCorrection.tz i (j + 1) := by decide

/-- Below the sentinel, ten times a lite speed site is the float table's
shadow speed entry. -/
theorem spd_eq_tz : ∀ i, i < 28 →
    (SpeedCorrectionLite.spd i : ℤ) * 10 = SpeedCorrection.tz i 0 := by decide

/-- Lite correction entries are ten times the float correction entries. -/
theorem cor_cast_eq (i : ℕ) (hi : i < 29) (j : ℕ) (hj : j < 3) :
    (SpeedCorrectionLite.cor i j : ℚ) = 10 * SpeedCorrection.tbl i (j + 1) := by
  rw [SpeedCorrection.tbl_eq_tz, ← cor_eq_tz i hi j hj]
  ring

/-- Below the sentinel, float speed thresholds equal lite speed sites. -/
theorem tbl_speed_eq_spd (i : ℕ) (hi : i < 28) :
    SpeedCorrection.tbl i 0 = (SpeedCorrectionLite.spd i : ℚ) := by
  rw [SpeedCorrection.tbl_eq_tz, ← spd_eq_tz i hi]
  push_cast
  ring

/-- Lite row interpolation is ten times float row interpolation. -/
theorem rowCorrLite_eq_ten (i : ℕ) (hi : i < 29) (ca : ℚ) :
    SpeedCorrectionLite.rowCorrLite i ca = 10 * SpeedCorrection.rowCorr i ca := by
  unfold SpeedCorrectionLite.rowCorrLite SpeedCorrection.rowCorr
  rw [cor_cast_eq i hi 0 (by omega), cor_cast_eq i hi 1 (by omega),
    cor_cast_eq i hi 2 (by omega)]
  split_ifs with h
  · ring
  · ring

/-- On the common domain both scans stop at the same row index. -/
theorem speedIndexHigh_agree {r : ℕ} (h0 : 0 < r) (h255 : r ≤ 255) :
    SpeedCorrection.speedIndexHigh (r : ℚ) = SpeedCorrectionLite.speedIndexHigh r := by
  obtain ⟨h1, h2, hlo, hhi⟩ := SpeedCorrectionLite.speedIndexHigh_bracket_lite h0 h255
  apply SpeedCorrection.speedIndexHigh_eq h1 h2
  · rw [tbl_speed_eq_spd _ (by omega)]
    exact_mod_cast hlo
  · by_cases hk : SpeedCorrectionLite.speedIndexHigh r ≤ 27
    · rw [tbl_speed_eq_spd _ (by omega)]
      exact_mod_cast hhi
    · have hk28 : SpeedCorrectionLite.speedIndexHigh r = 28 := by omega
      rw [hk28]
      have h999 : SpeedCorrection.tbl 28 0 = 999 := rfl
      rw [h999]
      have hr : (r : ℚ) ≤ 255 := by exact_mod_cast h255
      linarith

/-- C4: on the common domain of the two variants — raw speed in `[1, 255]`
and angle in the byte range — the lite fixed-point routine and the float
routine return the same corrected speed: the only differences are the
ten-times-scaled integer table and the final division by ten, which
cancel exactly. -/
theorem c4_variants_agree :
    ∀ rawSpeed angle : ℕ, 1 ≤ rawSpeed → rawSpeed ≤ 255 → angle ≤ 255 →
      SpeedCorrectionLite.correctSpeed rawSpeed angle
        = SpeedCorrection.correctSpeed (rawSpeed : ℚ) (angle : ℚ) := by
  intro r a h1r h255 ha
  obtain ⟨hk1, hk28, hlo, hhi⟩ :=
    SpeedCorrectionLite.speedIndexHigh_bracket_lite (by omega) h255
  have hagree := speedIndexHigh_agree (r := r) (by omega) h255
  simp only [SpeedCorrectionLite.correctSpeed, SpeedCorrection.correctSpeed, hagree]
  rw [if_neg (by omega), if_neg (by omega)]
  refine congrArg some ?_
  rw [SpeedCorrectionLite.bracketCorrect_eq_lite, SpeedCorrection.bracketCorrect_eq,
    SpeedCorrection.foldAngle_eq_spec, SpeedCorrectionLite.foldAngle_cast_spec ha]
  by_cases hk : SpeedCorrectionLite.speedIndexHigh r ≤ 27
  · rw [rowCorrLite_eq_ten (SpeedCorrectionLite.speedIndexHigh r) (by omega),
      rowCorrLite_eq_ten (SpeedCorrectionLite.speedIndexHigh r - 1) (by omega),
      tbl_speed_eq_spd (SpeedCorrectionLite.speedIndexHigh r) (by omega),
      tbl_speed_eq_spd (SpeedCorrectionLite.speedIndexHigh r - 1) (by omega)]
    ring
  · have hk28' : SpeedCorrectionLite.speedIndexHigh r = 28 := by omega
    rw [hk28', show (28 : ℕ) - 1 = 27 from rfl, SpeedCorrectionLite.rowCorrLite_flat,
      SpeedCorrection.rowCorr_flat, rowCorrLite_eq_ten 27 (by omega)]
    ring

/-- Witness for C4 at raw speed 22, angle 180. -/
theorem c4_variants_agree_witness :
    1 ≤ 22 ∧ 22 ≤ 255 ∧ 180 ≤ 255 ∧
      SpeedCorrectionLite.correctSpeed 22 180
        = SpeedCorrection.correctSpeed (22 : ℚ) (180 : ℚ) :=
  ⟨by norm_num, by norm_num, by norm_num, by
    have h := c4_variants_agree 22 180 (by norm_num) (by norm_num) (by norm_num)
    exact_mod_cast h⟩
